import Mathlib

/-!
Verification development for the chess rules engine in `src/chess.py`
(F3dai/Strawberry-chess).

The Python program keeps the board as an 8×8 list of lists whose entries are
either `0` (empty) or a `Piece` object carrying a one-letter kind name, the
current `row`/`col`, a color `'w'`/`'b'` and a `has_moved` flag.  We embed this
shallowly: board cells become `Option Piece`, the integer coordinates become
`Int` (Python ints), and all in-place mutation is made explicit by passing
updated values.  Every definition below is translated from the source; line
numbers in comments refer to `src/chess.py`.
-/

namespace Chess

/-- The six piece kinds `'p' 'r' 'n' 'b' 'q' 'k'` of `Piece.name`. -/
inductive PieceName where
  | pawn | rook | knight | bishop | queen | king
deriving DecidableEq, Repr

/-- The two colors `'w'` and `'b'`. -/
inductive Color where
  | white | black
deriving DecidableEq, Repr

/-- `opponent_color = 'b' if color == 'w' else 'w'` (and symmetrically). -/
def Color.opp : Color → Color
  | .white => .black
  | .black => .white

/-- The `Piece` class (chess.py:60-80) without the pygame image field, which is
presentation-only.  `Piece.__init__` sets `has_moved = False`. -/
structure Piece where
  name : PieceName
  row : Int
  col : Int
  color : Color
  has_moved : Bool
deriving DecidableEq, Repr

/-- Constructor mirroring `Piece(name, row, col, color)`: `has_moved` starts
`False` (chess.py:80). -/
def mkPiece (n : PieceName) (r c : Int) (col : Color) : Piece :=
  { name := n, row := r, col := c, color := col, has_moved := false }

/-- The board: `board[row][col]` is `0` or a `Piece` (8×8 list of lists). -/
abbrev Board := List (List (Option Piece))

/-- Read `board[r][c]`.  All source accesses are pre-guarded by
`0 <= r < 8 and 0 <= c < 8`, so out-of-range reads never occur on the paths we
model; we default them to an empty square. -/
def cell (bd : Board) (r c : Int) : Option Piece :=
  ((bd.getD r.toNat []).getD c.toNat none)

/-- Write `board[r][c] = v`. -/
def setCell (bd : Board) (r c : Int) (v : Option Piece) : Board :=
  bd.set r.toNat ((bd.getD r.toNat []).set c.toNat v)

/-- An 8×8 board (always true for boards built by `create_board` and preserved
by `setCell`). -/
def WF (bd : Board) : Prop :=
  bd.length = 8 ∧ ∀ ro ∈ bd, ro.length = 8

instance : DecidablePred WF := fun bd => by
  unfold WF; infer_instance

/-- `get_pawn_moves` (chess.py:125-166).  Order of appends follows the source:
forward one, forward two, left capture, left en passant, right capture, right
en passant.  The two diagonal branches are the same code with `new_col =
self.col ∓ 1`, factored here into `capture`. -/
def get_pawn_moves (p : Piece) (bd : Board) (ept : Option (Int × Int)) :
    List (Int × Int) :=
  let direction : Int := if p.color = .white then -1 else 1
  let start_row : Int := if p.color = .white then 6 else 1
  let new_row := p.row + direction
  let forward : List (Int × Int) :=
    if 0 ≤ new_row ∧ new_row < 8 ∧ cell bd new_row p.col = none then
      (new_row, p.col) ::
        (let new_row_two := new_row + direction
         if p.row = start_row ∧ 0 ≤ new_row_two ∧ new_row_two < 8 ∧
             cell bd new_row_two p.col = none then
           [(new_row_two, p.col)]
         else [])
    else []
  let capture (new_col : Int) : List (Int × Int) :=
    if 0 ≤ new_col ∧ new_col < 8 ∧ 0 ≤ new_row ∧ new_row < 8 then
      (match cell bd new_row new_col with
       | some t => if t.color ≠ p.color then [(new_row, new_col)] else []
       | none => []) ++
      (if ept = some (new_row, new_col) then [(new_row, new_col)] else [])
    else []
  forward ++ capture (p.col - 1) ++ capture (p.col + 1)

/-- One sliding direction of `get_rook_moves` / `get_bishop_moves`
(chess.py:168-190, 215-237): the `while` loop walks until it leaves the board
or hits a piece; an enemy blocker is included.  The loop makes at most 8
iterations, so fuel 8 simulates it exactly. -/
def slide (p : Piece) (bd : Board) (dr dc : Int) :
    Nat → Int → Int → List (Int × Int)
  | 0, _, _ => []
  | fuel + 1, r, c =>
    if 0 ≤ r ∧ r < 8 ∧ 0 ≤ c ∧ c < 8 then
      match cell bd r c with
      | none => (r, c) :: slide p bd dr dc fuel (r + dr) (c + dc)
      | some t => if t.color ≠ p.color then [(r, c)] else []
    else []

/-- `get_rook_moves` (chess.py:168-190): directions up, down, left, right. -/
def get_rook_moves (p : Piece) (bd : Board) : List (Int × Int) :=
  slide p bd (-1) 0 8 (p.row - 1) p.col ++
  slide p bd 1 0 8 (p.row + 1) p.col ++
  slide p bd 0 (-1) 8 p.row (p.col - 1) ++
  slide p bd 0 1 8 p.row (p.col + 1)

/-- `get_knight_moves` (chess.py:192-213). -/
def knight_offsets : List (Int × Int) :=
  [(-2, -1), (-2, 1), (-1, -2), (-1, 2), (1, -2), (1, 2), (2, -1), (2, 1)]

def get_knight_moves (p : Piece) (bd : Board) : List (Int × Int) :=
  knight_offsets.foldl
    (fun acc d =>
      let row := p.row + d.1
      let col := p.col + d.2
      if 0 ≤ row ∧ row < 8 ∧ 0 ≤ col ∧ col < 8 then
        match cell bd row col with
        | none => acc ++ [(row, col)]
        | some t => if t.color ≠ p.color then acc ++ [(row, col)] else acc
      else acc)
    []

/-- `get_bishop_moves` (chess.py:215-237): the four diagonals. -/
def get_bishop_moves (p : Piece) (bd : Board) : List (Int × Int) :=
  slide p bd (-1) (-1) 8 (p.row - 1) (p.col - 1) ++
  slide p bd (-1) 1 8 (p.row - 1) (p.col + 1) ++
  slide p bd 1 (-1) 8 (p.row + 1) (p.col - 1) ++
  slide p bd 1 1 8 (p.row + 1) (p.col + 1)

/-- `get_queen_moves` (chess.py:239-247): rook moves then bishop moves. -/
def get_queen_moves (p : Piece) (bd : Board) : List (Int × Int) :=
  get_rook_moves p bd ++ get_bishop_moves p bd

/-- `get_valid_moves` restricted to non-king pieces.  The attack loops in
`is_square_under_attack` (chess.py:334-353) and `is_in_check` (chess.py:561-590)
skip the opposing king (`if piece.name == 'k': continue`) before calling
`piece.get_valid_moves(board)` — with the default `en_passant_target=None` —
so only these five cases are ever reached from them. -/
def get_valid_moves_no_king (p : Piece) (bd : Board) (ept : Option (Int × Int)) :
    List (Int × Int) :=
  match p.name with
  | .pawn => get_pawn_moves p bd ept
  | .rook => get_rook_moves p bd
  | .knight => get_knight_moves p bd
  | .bishop => get_bishop_moves p bd
  | .queen => get_queen_moves p bd
  | .king => []

/-- The shared loop body of `is_square_under_attack` (chess.py:344-353) and the
attack half of `is_in_check` (chess.py:581-590): does some piece of
`attacker` color (kings excluded) have `target` among its generated moves? -/
def squareAttackedBy (bd : Board) (attacker : Color) (target : Int × Int) :
    Bool :=
  bd.any fun ro =>
    ro.any fun cv =>
      match cv with
      | some piece =>
        decide (piece.color = attacker) && !(decide (piece.name = .king)) &&
          decide (target ∈ get_valid_moves_no_king piece bd none)
      | none => false

/-- `is_square_under_attack(board, square, color)` (chess.py:334-353). -/
def is_square_under_attack (bd : Board) (square : Int × Int) (color : Color) :
    Bool :=
  squareAttackedBy bd color.opp square

/-- The king-locating loop of `is_in_check` (chess.py:569-575): for each row,
the first matching piece is taken (the `break` leaves the inner loop only), and
a later row overwrites an earlier one.  The position recorded is the piece's
`row`/`col` fields. -/
def rowFindKing (ro : List (Option Piece)) (color : Color) :
    Option (Int × Int) :=
  ro.findSome? fun cv =>
    match cv with
    | some p =>
      if p.name = .king ∧ p.color = color then some (p.row, p.col) else none
    | none => none

def find_king (bd : Board) (color : Color) : Option (Int × Int) :=
  bd.foldl
    (fun acc ro =>
      match rowFindKing ro color with
      | some pos => some pos
      | none => acc)
    none

/-- `is_in_check(board, color)` (chess.py:561-590): locate the king; a missing
king yields `False`; otherwise scan all opposing non-king pieces. -/
def is_in_check (bd : Board) (color : Color) : Bool :=
  match find_king bd color with
  | none => false
  | some king_pos => squareAttackedBy bd color.opp king_pos

/-- Does a king of this color appear anywhere on the board?  (Spec-side
shorthand for stating the missing-king hypothesis of C8; the source has no
such helper, its loops perform the equivalent scan.) -/
def hasKing (bd : Board) (color : Color) : Bool :=
  bd.any fun ro =>
    ro.any fun cv =>
      match cv with
      | some p => decide (p.name = .king ∧ p.color = color)
      | none => false

/-- The scanning loop of `check_win_condition` (chess.py:545-554): one pass
over the board sets the `(white_king, black_king)` presence flags. -/
def king_flags (bd : Board) : Bool × Bool :=
  bd.foldl
    (fun acc ro =>
      ro.foldl
        (fun (acc : Bool × Bool) cv =>
          match cv with
          | some p =>
            if p.name = .king then
              if p.color = .white then (true, acc.2) else (acc.1, true)
            else acc
          | none => acc)
        acc)
    (false, false)

/-- `check_win_condition(board)` (chess.py:536-559): a missing white king
loses first, then a missing black king; otherwise no winner yet. -/
def check_win_condition (bd : Board) : Bool × Option Color :=
  let flags := king_flags bd
  if flags.1 = false then (true, some .black)
  else if flags.2 = false then (true, some .white)
  else (false, none)

/-- `row = 7 if color == 'w' else 0`, the home rank hard-coded by
`can_castle_kingside`/`can_castle_queenside` (chess.py:296, 319). -/
def home_row (color : Color) : Int :=
  if color = .white then 7 else 0

/-- `can_castle_kingside(board, color)` (chess.py:288-309).  The source fixes
`row = 7 if color == 'w' else 0` and checks columns 5–6 empty and columns 4–6
unattacked; it reads `board[row][4]` into an unused `king` variable. -/
def can_castle_kingside (bd : Board) (color : Color) : Bool :=
  let row : Int := home_row color
  match cell bd row 7 with
  | none => false
  | some rk =>
    decide (rk.name = .rook) && decide (rk.color = color) && !rk.has_moved &&
    decide (cell bd row 5 = none) && decide (cell bd row 6 = none) &&
    !is_square_under_attack bd (row, 4) color &&
    !is_square_under_attack bd (row, 5) color &&
    !is_square_under_attack bd (row, 6) color

/-- `can_castle_queenside(board, color)` (chess.py:311-332): rook at column 0,
columns 1–3 empty, columns 2–4 unattacked. -/
def can_castle_queenside (bd : Board) (color : Color) : Bool :=
  let row : Int := home_row color
  match cell bd row 0 with
  | none => false
  | some rk =>
    decide (rk.name = .rook) && decide (rk.color = color) && !rk.has_moved &&
    decide (cell bd row 1 = none) && decide (cell bd row 2 = none) &&
    decide (cell bd row 3 = none) &&
    !is_square_under_attack bd (row, 2) color &&
    !is_square_under_attack bd (row, 3) color &&
    !is_square_under_attack bd (row, 4) color

/-- The eight king directions (chess.py:257-261), in source order. -/
def king_dirs : List (Int × Int) :=
  [(-1, -1), (-1, 0), (-1, 1), (0, -1), (0, 1), (1, -1), (1, 0), (1, 1)]

/-- One iteration of the direction loop in `get_king_moves` (chess.py:263-275).
The state component is the pair `(self.row, self.col)` of the king's mutable
coordinate fields.  The temporary in-place move `self.row, self.col = row, col`
is modelled by rebuilding the board with the king's cell — the array slot at
its original coordinates — holding a piece whose fields carry the candidate
square; the board array itself is never written by the source, and the fields
are restored to `original_row, original_col` before the next iteration. -/
def king_step (bd : Board) (p : Piece)
    (s : (Int × Int) × List (Int × Int)) (d : Int × Int) :
    (Int × Int) × List (Int × Int) :=
  let row := s.1.1 + d.1
  let col := s.1.2 + d.2
  if 0 ≤ row ∧ row < 8 ∧ 0 ≤ col ∧ col < 8 then
    let ok :=
      match cell bd row col with
      | none => true
      | some t => decide (t.color ≠ p.color)
    if ok then
      let original := s.1
      let in_check :=
        is_in_check
          (setCell bd p.row p.col (some { p with row := row, col := col }))
          p.color
      if in_check = false then (original, s.2 ++ [(row, col)])
      else (original, s.2)
    else s
  else s

/-- The direction loop of `get_king_moves`, returning the accumulated moves
together with the final values of the king's coordinate fields. -/
def get_king_moves_core (p : Piece) (bd : Board) :
    (Int × Int) × List (Int × Int) :=
  king_dirs.foldl (king_step bd p) ((p.row, p.col), [])

/-- `get_king_moves` (chess.py:249-286): the eight filtered adjacent squares,
then castling destinations `(self.row, self.col ± 2)` gated by `has_moved`,
`is_in_check` and `can_castle_kingside`/`can_castle_queenside`. -/
def get_king_moves (p : Piece) (bd : Board) : List (Int × Int) :=
  (get_king_moves_core p bd).2 ++
    (if p.has_moved = false ∧ is_in_check bd p.color = false then
      (if can_castle_kingside bd p.color then [(p.row, p.col + 2)] else []) ++
      (if can_castle_queenside bd p.color then [(p.row, p.col - 2)] else [])
    else [])

/-- `get_valid_moves(board, en_passant_target)` (chess.py:103-123): dispatch on
the piece kind; only the pawn case uses the en-passant target. -/
def get_valid_moves (p : Piece) (bd : Board) (ept : Option (Int × Int)) :
    List (Int × Int) :=
  match p.name with
  | .pawn => get_pawn_moves p bd ept
  | .rook => get_rook_moves p bd
  | .knight => get_knight_moves p bd
  | .bishop => get_bishop_moves p bd
  | .queen => get_queen_moves p bd
  | .king => get_king_moves p bd

/-- `move_puts_king_in_check(board, piece, move, color)` (chess.py:872-888):
deep-copy the board, zero the origin, drop the piece (with updated fields) on
the destination, and ask `is_in_check`.  Neither the en-passant victim nor a
castling rook displacement is simulated here.  When the origin cell is empty
the Python code would raise before reaching `is_in_check`; that case is never
exercised on the modelled paths, and we let it fall through with no piece
placed. -/
def move_puts_king_in_check (bd : Board) (p : Piece) (m : Int × Int)
    (color : Color) : Bool :=
  match cell bd p.row p.col with
  | none =>
    is_in_check (setCell (setCell bd p.row p.col none) m.1 m.2 none) color
  | some tp =>
    is_in_check
      (setCell (setCell bd p.row p.col none) m.1 m.2
        (some { tp with row := m.1, col := m.2 }))
      color

/-- The move simulation inside `is_checkmate` (chess.py:1106-1126): deep copy,
zero the origin, place the moved piece on the destination, and — unlike
`move_puts_king_in_check` — also displace the rook for a two-column king move.
An empty origin cell or missing rook would raise in Python after the writes
shown here; those cases are unreachable for boards whose pieces sit at their
recorded coordinates. -/
def checkmate_sim (bd : Board) (p : Piece) (m : Int × Int) : Board :=
  match cell bd p.row p.col with
  | none => setCell (setCell bd p.row p.col none) m.1 m.2 none
  | some tp =>
    let b2 :=
      setCell (setCell bd p.row p.col none) m.1 m.2
        (some { tp with row := m.1, col := m.2 })
    if p.name = .king ∧ (m.2 - 4).natAbs = 2 then
      if m.2 - 4 = 2 then
        match cell b2 m.1 7 with
        | some rk =>
          setCell (setCell b2 m.1 7 none) m.1 5
            (some { rk with row := m.1, col := 5 })
        | none => setCell (setCell b2 m.1 7 none) m.1 5 none
      else
        match cell b2 m.1 0 with
        | some rk =>
          setCell (setCell b2 m.1 0 none) m.1 3
            (some { rk with row := m.1, col := 3 })
        | none => setCell (setCell b2 m.1 0 none) m.1 3 none
    else b2

/-- `is_checkmate(board, color)` (chess.py:1090-1130, the binding used at run
time; the two earlier copies at 592 and 790 are textually identical).  Returns
`False` when not in check; otherwise `False` as soon as some piece of `color`
has a generated move — `get_valid_moves` is called *without* the en-passant
target — whose simulation leaves the king out of check, else `True`. -/
def is_checkmate (bd : Board) (color : Color) : Bool :=
  is_in_check bd color &&
    bd.all fun ro =>
      ro.all fun cv =>
        match cv with
        | some piece =>
          if piece.color = color then
            (get_valid_moves piece bd none).all fun m =>
              is_in_check (checkmate_sim bd piece m) color
          else true
        | none => true

/-- `create_board()` (chess.py:371-403). -/
def backRank (color : Color) (r : Int) : List (Option Piece) :=
  [some (mkPiece .rook r 0 color), some (mkPiece .knight r 1 color),
   some (mkPiece .bishop r 2 color), some (mkPiece .queen r 3 color),
   some (mkPiece .king r 4 color), some (mkPiece .bishop r 5 color),
   some (mkPiece .knight r 6 color), some (mkPiece .rook r 7 color)]

def pawnRank (color : Color) (r : Int) : List (Option Piece) :=
  [some (mkPiece .pawn r 0 color), some (mkPiece .pawn r 1 color),
   some (mkPiece .pawn r 2 color), some (mkPiece .pawn r 3 color),
   some (mkPiece .pawn r 4 color), some (mkPiece .pawn r 5 color),
   some (mkPiece .pawn r 6 color), some (mkPiece .pawn r 7 color)]

def emptyRank : List (Option Piece) :=
  [none, none, none, none, none, none, none, none]

def create_board : Board :=
  [backRank .black 0, pawnRank .black 1, emptyRank, emptyRank,
   emptyRank, emptyRank, pawnRank .white 6, backRank .white 7]

/-- The tuple `(board, turn, en_passant_target, move_history, captured_white,
captured_black)` deep-copied onto `move_stack` before each committed move
(chess.py:961). -/
structure Snapshot where
  board : Board
  turn : Color
  ept : Option (Int × Int)
  history : List String
  captured_white : List String
  captured_black : List String
deriving DecidableEq

/-- The mutable game variables of `main()` (chess.py:898-909) that make up the
engine state: board, side to move, en-passant target, move history, captured
lists, undo stack, and the terminal flags `game_over`/`winner`. -/
structure GameState where
  board : Board
  turn : Color
  ept : Option (Int × Int)
  history : List String
  captured_white : List String
  captured_black : List String
  move_stack : List Snapshot
  game_over : Bool
  winner : Option Color
deriving DecidableEq

def GameState.snap (st : GameState) : Snapshot :=
  ⟨st.board, st.turn, st.ept, st.history, st.captured_white,
   st.captured_black⟩

/-- The initial `main()` state (chess.py:898-909): fresh board, White to move,
everything else empty. -/
def initState : GameState :=
  { board := create_board, turn := .white, ept := none, history := [],
    captured_white := [], captured_black := [], move_stack := [],
    game_over := false, winner := none }

/-- `'White'` / `'Black'` as rendered in the sidebar strings. -/
def colorWord : Color → String
  | .white => "White"
  | .black => "Black"

/-- `piece.name` as the Python one-letter string. -/
def nameChar : PieceName → String
  | .pawn => "p"
  | .rook => "r"
  | .knight => "n"
  | .bishop => "b"
  | .queen => "q"
  | .king => "k"

/-- `piece.name.upper()` used in the move record (chess.py:1018). -/
def nameCharUpper : PieceName → String
  | .pawn => "P"
  | .rook => "R"
  | .knight => "N"
  | .bishop => "B"
  | .queen => "Q"
  | .king => "K"

/-- `captured_piece.name + 'p'` as appended to the captured lists
(chess.py:970-972, 979-981). -/
def piece_tag (p : Piece) : String :=
  nameChar p.name ++ "p"

/-- The f-string of chess.py:1018:
`f"{move_number}. {side}: {NAME} from ({r1}, {c1}) to ({r2}, {c2})"`.
At that point `selected_piece.row, selected_piece.col` have already been set
to the destination (line 983), which is why commits log the destination twice
— see C7. -/
def moveRecord (move_number : Nat) (turn : Color) (p : Piece)
    (toR toC : Int) : String :=
  toString move_number ++ ". " ++ colorWord turn ++ ": " ++
  nameCharUpper p.name ++ " from (" ++ toString p.row ++ ", " ++
  toString p.col ++ ") to (" ++ toString toR ++ ", " ++ toString toC ++ ")"

/-- chess.py:1027: `f"{side} is in Check!"`. -/
def checkNotice (c : Color) : String :=
  colorWord c ++ " is in Check!"

/-- chess.py:1034: `f"{side} wins by Checkmate!"`. -/
def mateNotice (winner : Color) : String :=
  colorWord winner ++ " wins by Checkmate!"

/-- chess.py:1041: `f"{side} wins by capturing the king!"`. -/
def captureNotice (winner : Option Color) : String :=
  (match winner with
   | some c => colorWord c
   | none => colorWord .black) ++ " wins by capturing the king!"

/-- The en-passant capture block of the commit path (chess.py:963-972): when
the mover is a pawn and the destination equals the en-passant target, the
square in the mover's pre-move row and the destination column is emptied and
its occupant's tag goes to the matching captured list.  (An empty bypassed
square would raise in Python at `captured_piece.color`; the branch is kept
total by appending nothing.) -/
def ep_capture (bd : Board) (cw cb : List String) (sel : Piece)
    (ept : Option (Int × Int)) (toR toC : Int) :
    Board × List String × List String :=
  if sel.name = .pawn ∧ ept = some (toR, toC) then
    let capture_row := sel.row
    let capture_col := toC
    match cell bd capture_row capture_col with
    | some cp =>
      (setCell bd capture_row capture_col none,
       (if cp.color = .white then cw ++ [piece_tag cp] else cw),
       (if cp.color = .white then cb else cb ++ [piece_tag cp]))
    | none => (setCell bd capture_row capture_col none, cw, cb)
  else (bd, cw, cb)

/-- The castling block of the commit path (chess.py:986-1003): after a
two-column king move the matching rook is relocated and marked moved.  (A
missing rook would raise in Python; the writes performed before the raise are
kept.) -/
def castle_rook (bd : Board) (sel : Piece) (toR toC : Int) : Board :=
  if sel.name = .king ∧ (toC - 4).natAbs = 2 then
    if toC - 4 = 2 then
      match cell bd toR 7 with
      | some rk =>
        setCell (setCell bd toR 7 none) toR 5
          (some { rk with row := toR, col := 5, has_moved := true })
      | none => setCell (setCell bd toR 7 none) toR 5 none
    else
      match cell bd toR 0 with
      | some rk =>
        setCell (setCell bd toR 0 none) toR 3
          (some { rk with row := toR, col := 3, has_moved := true })
      | none => setCell (setCell bd toR 0 none) toR 3 none
  else bd

/-- The board/captured-list/piece pipeline of one committed move
(chess.py:963-1008), in source order: en-passant capture; zero the origin
(`board[selected_piece.row][selected_piece.col] = 0`); capture the destination
occupant; place the piece with updated fields and `has_moved = True`; castling
rook displacement; promotion, replacing the pawn by a brand-new piece of the
chosen kind (`has_moved = False`).  Returns the resulting board, the two
captured lists, and the final `selected_piece` value. -/
def apply_move (bd : Board) (cw cb : List String) (sel : Piece)
    (ept : Option (Int × Int)) (toR toC : Int) (promo : PieceName) :
    Board × List String × List String × Piece :=
  let epres := ep_capture bd cw cb sel ept toR toC
  let bd1 := setCell epres.1 sel.row sel.col none
  let captured := cell bd1 toR toC
  let cw1 :=
    match captured with
    | some cp => if cp.color = .white then epres.2.1 ++ [piece_tag cp]
                 else epres.2.1
    | none => epres.2.1
  let cb1 :=
    match captured with
    | some cp => if cp.color = .white then epres.2.2
                 else epres.2.2 ++ [piece_tag cp]
    | none => epres.2.2
  let moved : Piece := { sel with row := toR, col := toC, has_moved := true }
  let bd2 := setCell bd1 toR toC (some moved)
  let bd3 := castle_rook bd2 moved toR toC
  if moved.name = .pawn ∧ (toR = 0 ∨ toR = 7) then
    let np := mkPiece promo toR toC moved.color
    (setCell bd3 toR toC (some np), cw1, cb1, np)
  else (bd3, cw1, cb1, moved)

/-- The en-passant target recomputation (chess.py:1010-1014), evaluated on the
post-move `selected_piece`, whose `row` already equals the destination row —
so the tested distance is always 1 and the branch never fires; see C2. -/
def next_ept (sel2 : Piece) (toR toC : Int) : Option (Int × Int) :=
  let dirTerm : Int := if sel2.color = .white then -1 else 1
  if sel2.name = .pawn ∧ (toR - (sel2.row - dirTerm)).natAbs = 2 then
    some (Int.fdiv (toR + (sel2.row - dirTerm)) 2, toC)
  else none

/-- One committed move (chess.py:959-1044), starting from the click on a
destination contained in `valid_moves`.  The moving piece is
`board[fromR][fromC]` (the click that selected it); a commit on an empty
origin cannot occur in the event loop and leaves the state unchanged here.
`promo` is the key supplied to `promote_pawn` (default Queen).  Steps, in
source order: push the undo snapshot; `apply_move`; recompute the en-passant
target; append the move record; then `check_win_condition`, the check notice,
`is_checkmate` — note the turn flips even when checkmate ends the game — or
the capture-win message. -/
def commit (st : GameState) (fromR fromC toR toC : Int) (promo : PieceName) :
    GameState :=
  match cell st.board fromR fromC with
  | none => st
  | some sel =>
    let stack := st.snap :: st.move_stack
    let res :=
      apply_move st.board st.captured_white st.captured_black sel st.ept
        toR toC promo
    let bd4 := res.1
    let cw1 := res.2.1
    let cb1 := res.2.2.1
    let sel2 := res.2.2.2
    let ept2 := next_ept sel2 toR toC
    let move_number := st.history.length / 2 + 1
    let hist1 := st.history ++ [moveRecord move_number st.turn sel2 toR toC]
    let wincheck := check_win_condition bd4
    if wincheck.1 = false then
      let hist2 :=
        if is_in_check bd4 st.turn.opp then hist1 ++ [checkNotice st.turn.opp]
        else hist1
      if is_checkmate bd4 st.turn.opp then
        { board := bd4, turn := st.turn.opp, ept := ept2,
          history := hist2 ++ [mateNotice st.turn.opp.opp],
          captured_white := cw1, captured_black := cb1, move_stack := stack,
          game_over := true, winner := some st.turn.opp.opp }
      else
        { board := bd4, turn := st.turn.opp, ept := ept2, history := hist2,
          captured_white := cw1, captured_black := cb1, move_stack := stack,
          game_over := false, winner := st.winner }
    else
      { board := bd4, turn := st.turn, ept := ept2,
        history := hist1 ++ [captureNotice wincheck.2],
        captured_white := cw1, captured_black := cb1, move_stack := stack,
        game_over := true, winner := wincheck.2 }

/-- The undo action (chess.py:946-954 and 1066-1074): pop the latest snapshot,
restore the six saved variables, and clear the terminal flags.  An empty stack
is a no-op. -/
def undo (st : GameState) : GameState :=
  match st.move_stack with
  | [] => st
  | snap :: rest =>
    { board := snap.board, turn := snap.turn, ept := snap.ept,
      history := snap.history, captured_white := snap.captured_white,
      captured_black := snap.captured_black, move_stack := rest,
      game_over := false, winner := none }

/-- The filtered move list of chess.py:1051 and 1060:
`[m for m in piece.get_valid_moves(board, ept) if not
move_puts_king_in_check(board, piece, m, turn)]`. -/
def filtered_moves (bd : Board) (ept : Option (Int × Int)) (turn : Color)
    (p : Piece) : List (Int × Int) :=
  (get_valid_moves p bd ept).filter fun m =>
    !(move_puts_king_in_check bd p m turn)

/-- The destinations offered on a fresh selection (chess.py:1056-1063): the
simulate-then-check filter runs only when the mover is currently in check;
otherwise the raw `get_valid_moves` list is offered unfiltered. -/
def select_moves (bd : Board) (ept : Option (Int × Int)) (turn : Color)
    (p : Piece) : List (Int × Int) :=
  if is_in_check bd turn then filtered_moves bd ept turn p
  else get_valid_moves p bd ept

/-- The click dispatch while a piece is selected (chess.py:957-1054): a click
on one of the offered destinations commits; any other click merely reselects
(chess.py:1048-1054, the filtered list of line 1051) or deselects, leaving the
game state untouched.  The second component is the new
`(selected_piece, valid_moves)` pair. -/
def handle_click (st : GameState) (sel : Piece) (valid : List (Int × Int))
    (toR toC : Int) (promo : PieceName) :
    GameState × Option (Piece × List (Int × Int)) :=
  if (toR, toC) ∈ valid then
    (commit st sel.row sel.col toR toC promo, none)
  else
    match cell st.board toR toC with
    | some q =>
      if q.color = st.turn then
        (st, some (q, filtered_moves st.board st.ept st.turn q))
      else (st, none)
    | none => (st, none)

/-- The game states reachable by committing offered moves from the initial
position: the event loop only processes board clicks while `game_over` is
false, a piece of the side to move is selected, and the clicked destination is
among the offered moves.  (`filtered_moves` is a sublist of `select_moves`, so
membership in `select_moves` covers the reselection path of line 1051 as
well.) -/
inductive Reachable : GameState → Prop where
  | init : Reachable initState
  | step {st : GameState} {fromR fromC toR toC : Int} {p : Piece}
      {promo : PieceName} :
      Reachable st →
      st.game_over = false →
      cell st.board fromR fromC = some p →
      p.color = st.turn →
      (toR, toC) ∈ select_moves st.board st.ept st.turn p →
      Reachable (commit st fromR fromC toR toC promo)

/-- The legal moves of one piece as §4.4 of the spec words it for the
checkmate search (claim C5): the generated pseudo-legal moves — `is_checkmate`
passes no en-passant target, so none is available here — filtered by
simulating the move (castling rook displacement included, per §4.4) and
keeping those that do not leave `color` in check. -/
def legal_moves_per_spec (bd : Board) (p : Piece) (color : Color) :
    List (Int × Int) :=
  (get_valid_moves p bd none).filter fun m =>
    !(is_in_check (checkmate_sim bd p m) color)

/-- The right-hand side of claim C5, following the spec's words: `color` is
checkmated iff it is in check and `legal_moves` returns empty for all of its
pieces. -/
def checkmate_per_spec (bd : Board) (color : Color) : Prop :=
  is_in_check bd color = true ∧
    ∀ ro ∈ bd, ∀ cv ∈ ro, ∀ p : Piece, cv = some p → p.color = color →
      legal_moves_per_spec bd p color = []

/-- The position after 1.e4 a6 2.Qh5 — three committed moves from the initial
position: White pawn (6,4)→(4,4), Black pawn (1,0)→(2,0), White queen
(7,3)→(3,7).  Black is not in check (the f7 pawn blocks the queen's diagonal
to e8), so a fresh selection of the f7 pawn is offered its unfiltered moves;
used in C1. -/
def c1_state : GameState :=
  commit (commit (commit initState 6 4 4 4 .queen) 1 0 2 0 .queen)
    7 3 3 7 .queen

/-- A board for C4's counterexample: the white king sits on (3,4) with its
`has_moved` flag still `False`, the white h1-rook is unmoved, a white pawn on
(5,6) shields h1-g1 from the black rook on (0,6), and the black king is far
away.  `can_castle_kingside` inspects only row 7, which passes all its tests,
while the castling destination actually offered — (3,6), two columns from the
king's real square — is attacked by the black rook. -/
def c4_board : Board :=
  [[some (mkPiece .king 0 0 .black), none, none, none, none, none,
    some (mkPiece .rook 0 6 .black), none],
   emptyRank, emptyRank,
   [none, none, none, none, some (mkPiece .king 3 4 .white), none, none,
    none],
   emptyRank,
   [none, none, none, none, none, none, some (mkPiece .pawn 5 6 .white),
    none],
   emptyRank,
   [none, none, none, none, none, none, none,
    some (mkPiece .rook 7 7 .white)]]

/-- A board for C4's witness: white king on e1 and rook on h1 (both unmoved),
black king on a8; kingside castling is offered and all original preconditions
hold. -/
def c4_home_board : Board :=
  [[some (mkPiece .king 0 0 .black), none, none, none, none, none, none,
    none],
   emptyRank, emptyRank, emptyRank, emptyRank, emptyRank, emptyRank,
   [none, none, none, none, some (mkPiece .king 7 4 .white), none, none,
    some (mkPiece .rook 7 7 .white)]]

/-- A hand-built position for C6's witness: a white pawn on (3,4), a black
pawn on (3,3) — as if it had just double-stepped — the two kings, and the
en-passant target set to (2,3).  (The state is not reachable in the program
because of the C2 bug, which is precisely why a hypothetical target is
installed directly.) -/
def c6_state : GameState :=
  { board :=
      [[some (mkPiece .king 0 4 .black), none, none, none, none, none, none,
        none],
       emptyRank, emptyRank,
       [none, none, none, some (mkPiece .pawn 3 3 .black),
        some (mkPiece .pawn 3 4 .white), none, none, none],
       emptyRank, emptyRank, emptyRank,
       [none, none, none, none, some (mkPiece .king 7 4 .white), none, none,
        none]],
    turn := .white, ept := some (2, 3), history := [], captured_white := [],
    captured_black := [], move_stack := [], game_over := false,
    winner := none }

/-! ### Helper lemmas -/

theorem setCell_length {bd : Board} {r c : Int} {v : Option Piece} :
    (setCell bd r c v).length = bd.length := by
  unfold setCell
  exact List.length_set ..

theorem row_setCell_ne {bd : Board} {r c : Int} {v : Option Piece}
    {n : Nat} (h : r.toNat ≠ n) :
    (setCell bd r c v).getD n [] = bd.getD n [] := by
  unfold setCell
  rw [List.getD_eq_getElem?_getD, List.getElem?_set_ne h,
    ← List.getD_eq_getElem?_getD]

theorem cell_setCell_ne_row {bd : Board} {r c r' c' : Int}
    {v : Option Piece} (h : r.toNat ≠ r'.toNat) :
    cell (setCell bd r c v) r' c' = cell bd r' c' := by
  unfold cell setCell
  simp only [List.getD_eq_getElem?_getD]
  rw [List.getElem?_set_ne h]

theorem cell_setCell_same_row {bd : Board} {r c c' : Int} {v : Option Piece}
    (hlen : r.toNat < bd.length) (h : c.toNat ≠ c'.toNat) :
    cell (setCell bd r c v) r c' = cell bd r c' := by
  unfold cell setCell
  simp only [List.getD_eq_getElem?_getD]
  rw [List.getElem?_set_self hlen, Option.getD_some,
    List.getElem?_set_ne h]

theorem cell_setCell_same {bd : Board} {r c : Int} {v : Option Piece}
    (hlen : r.toNat < bd.length)
    (hclen : c.toNat < (bd.getD r.toNat []).length) :
    cell (setCell bd r c v) r c = v := by
  unfold cell setCell
  simp only [List.getD_eq_getElem?_getD]
  rw [List.getElem?_set_self hlen, Option.getD_some,
    List.getElem?_set_self (by simpa [List.getD_eq_getElem?_getD] using hclen),
    Option.getD_some]

theorem WF.row_len {bd : Board} (hwf : WF bd) {n : Nat} (h : n < bd.length) :
    (bd.getD n []).length = 8 := by
  refine hwf.2 _ ?_
  rw [List.getD_eq_getElem?_getD, List.getElem?_eq_getElem h,
    Option.getD_some]
  exact List.getElem_mem h

/-- Each iteration of the king's direction loop restores `self.row, self.col`
before finishing: the coordinate-field state coming out of `king_step` is the
state that went in, whatever branch was taken. -/
theorem king_step_fst (bd : Board) (p : Piece)
    (s : (Int × Int) × List (Int × Int)) (d : Int × Int) :
    (king_step bd p s d).1 = s.1 := by
  unfold king_step
  dsimp only
  repeat' split
  all_goals rfl

theorem foldl_king_step_fst (bd : Board) (p : Piece) :
    ∀ (L : List (Int × Int)) (s : (Int × Int) × List (Int × Int)),
      (L.foldl (king_step bd p) s).1 = s.1 := by
  intro L
  induction L with
  | nil => intro s; rfl
  | cons d L ih =>
    intro s
    rw [List.foldl_cons, ih, king_step_fst]

/-- Any move produced by one `king_step` iteration is either inherited from
the accumulator or the candidate square one `d`-offset away from the current
coordinate fields. -/
theorem king_step_mem (bd : Board) (p : Piece)
    (s : (Int × Int) × List (Int × Int)) (d : Int × Int) (m : Int × Int)
    (h : m ∈ (king_step bd p s d).2) :
    m ∈ s.2 ∨ m = (s.1.1 + d.1, s.1.2 + d.2) := by
  unfold king_step at h
  dsimp only at h
  repeat' split at h
  all_goals simp_all

theorem foldl_king_step_mem (bd : Board) (p : Piece) :
    ∀ (L : List (Int × Int)) (s : (Int × Int) × List (Int × Int))
      (m : Int × Int), m ∈ (L.foldl (king_step bd p) s).2 →
      m ∈ s.2 ∨ ∃ d ∈ L, m = (s.1.1 + d.1, s.1.2 + d.2) := by
  intro L
  induction L with
  | nil => intro s m h; exact Or.inl h
  | cons d L ih =>
    intro s m h
    rw [List.foldl_cons] at h
    rcases ih _ m h with h' | ⟨d', hd', he⟩
    · rcases king_step_mem bd p s d m h' with h'' | h''
      · exact Or.inl h''
      · exact Or.inr ⟨d, List.mem_cons_self .., h''⟩
    · rw [king_step_fst] at he
      exact Or.inr ⟨d', List.mem_cons_of_mem _ hd', he⟩

/-- Every move in the adjacent-squares part of `get_king_moves` is one
king-direction offset away from the king's coordinates. -/
theorem get_king_moves_core_mem (bd : Board) (p : Piece) (m : Int × Int)
    (h : m ∈ (get_king_moves_core p bd).2) :
    ∃ d ∈ king_dirs, m = (p.row + d.1, p.col + d.2) := by
  rcases foldl_king_step_mem bd p king_dirs ((p.row, p.col), []) m h with
    h' | ⟨d, hd, he⟩
  · simp at h'
  · exact ⟨d, hd, he⟩

/-- Projections of `commit` that do not depend on which terminal branch is
taken: the resulting board, captured lists, the pushed undo frame, and the
fact that `winner` is untouched whenever the game is not over afterwards. -/
theorem commit_proj {st : GameState} {fromR fromC toR toC : Int}
    {promo : PieceName} {sel : Piece}
    (hsel : cell st.board fromR fromC = some sel) :
    (commit st fromR fromC toR toC promo).board =
      (apply_move st.board st.captured_white st.captured_black sel st.ept
        toR toC promo).1 ∧
    (commit st fromR fromC toR toC promo).captured_white =
      (apply_move st.board st.captured_white st.captured_black sel st.ept
        toR toC promo).2.1 ∧
    (commit st fromR fromC toR toC promo).captured_black =
      (apply_move st.board st.captured_white st.captured_black sel st.ept
        toR toC promo).2.2.1 ∧
    (commit st fromR fromC toR toC promo).move_stack =
      st.snap :: st.move_stack ∧
    ((commit st fromR fromC toR toC promo).game_over = false →
      (commit st fromR fromC toR toC promo).winner = st.winner) := by
  unfold commit
  rw [hsel]
  dsimp only
  refine ⟨?_, ?_, ?_, ?_, ?_⟩
  · split
    · split <;> rfl
    · rfl
  · split
    · split <;> rfl
    · rfl
  · split
    · split <;> rfl
    · rfl
  · split
    · split <;> rfl
    · rfl
  · split
    · split
      · intro h; cases h
      · intro _; rfl
    · intro h; cases h

/-- After `apply_move`, the final `selected_piece` value carries the
destination row: the ordinary move sets it at chess.py:983, and the promotion
replacement piece is created at the same square (chess.py:1007). -/
theorem apply_move_sel2_row (bd : Board) (cw cb : List String) (sel : Piece)
    (ept : Option (Int × Int)) (toR toC : Int) (promo : PieceName) :
    (apply_move bd cw cb sel ept toR toC promo).2.2.2.row = toR := by
  unfold apply_move
  dsimp only
  split <;> rfl

/-- The en-passant recomputation of chess.py:1011 always yields `None` when
the piece's `row` field already equals the destination row: the tested
distance collapses to `abs(direction) == 1`. -/
theorem next_ept_row_eq (q : Piece) (toR toC : Int) (h : q.row = toR) :
    next_ept q toR toC = none := by
  unfold next_ept
  dsimp only
  rw [if_neg]
  rintro ⟨-, habs⟩
  rw [h] at habs
  by_cases hc : q.color = Color.white
  · rw [if_pos hc] at habs; omega
  · rw [if_neg hc] at habs; omega

theorem rowFindKing_eq_none {ro : List (Option Piece)} {color : Color}
    (h : ∀ cv ∈ ro, ∀ p : Piece, cv = some p →
      ¬(p.name = PieceName.king ∧ p.color = color)) :
    rowFindKing ro color = none := by
  unfold rowFindKing
  rw [List.findSome?_eq_none_iff]
  intro cv hcv
  rcases cv with _ | p
  · rfl
  · exact if_neg (h _ hcv p rfl)

theorem find_king_eq_none {bd : Board} {color : Color}
    (h : hasKing bd color = false) : find_king bd color = none := by
  have hrow : ∀ ro ∈ bd, rowFindKing ro color = none := by
    intro ro hro
    refine rowFindKing_eq_none ?_
    rintro cv hcv p rfl hk
    have h1 : ∀ ro' ∈ bd, ro'.any (fun cv =>
        match cv with
        | some p => decide (p.name = PieceName.king ∧ p.color = color)
        | none => false) = false := by
      simpa [hasKing, List.any_eq_false] using h
    have h2 := (List.any_eq_false.mp (h1 ro hro)) _ hcv
    simp [hk.1, hk.2] at h2
  have main : ∀ (L : List (List (Option Piece))),
      (∀ ro ∈ L, rowFindKing ro color = none) →
      L.foldl (fun acc ro =>
        match rowFindKing ro color with
        | some pos => some pos
        | none => acc) none = none := by
    intro L
    induction L with
    | nil => intro _; rfl
    | cons ro L ih =>
      intro hall
      rw [List.foldl_cons, hall ro (List.mem_cons_self ..)]
      exact ih fun r hr => hall r (List.mem_cons_of_mem _ hr)
  exact main bd hrow

/-- A board with no king of a given color leaves no trace of that color in
`hasKing`'s cell predicate. -/
theorem hasKing_cells {bd : Board} {color : Color}
    (h : hasKing bd color = false) :
    ∀ ro ∈ bd, ∀ cv ∈ ro, ∀ p : Piece, cv = some p →
      ¬(p.name = PieceName.king ∧ p.color = color) := by
  rintro ro hro cv hcv p rfl hk
  have h1 : ∀ ro' ∈ bd, ro'.any (fun cv =>
      match cv with
      | some p => decide (p.name = PieceName.king ∧ p.color = color)
      | none => false) = false := by
    simpa [hasKing, List.any_eq_false] using h
  have h2 := (List.any_eq_false.mp (h1 ro hro)) _ hcv
  simp [hk.1, hk.2] at h2

/-- Without a white king anywhere, the `check_win_condition` scan never sets
the white flag. -/
theorem king_flags_fst {bd : Board} (h : hasKing bd .white = false) :
    (king_flags bd).1 = false := by
  have hcells := hasKing_cells h
  have hrowstep : ∀ (ro : List (Option Piece)),
      (∀ cv ∈ ro, ∀ p : Piece, cv = some p →
        ¬(p.name = PieceName.king ∧ p.color = Color.white)) →
      ∀ acc : Bool × Bool,
      (ro.foldl
        (fun (acc : Bool × Bool) cv =>
          match cv with
          | some p =>
            if p.name = PieceName.king then
              if p.color = Color.white then (true, acc.2) else (acc.1, true)
            else acc
          | none => acc)
        acc).1 = acc.1 := by
    intro ro
    induction ro with
    | nil => intro _ acc; rfl
    | cons cv ro ih =>
      intro hall acc
      rw [List.foldl_cons]
      rw [ih fun c hc => hall c (List.mem_cons_of_mem _ hc)]
      rcases cv with _ | p
      · rfl
      · by_cases hk : p.name = PieceName.king
        · have : ¬p.color = Color.white := fun hc =>
            hall _ (List.mem_cons_self ..) p rfl ⟨hk, hc⟩
          simp [hk, this]
        · simp [hk]
  unfold king_flags
  have main : ∀ (L : List (List (Option Piece))),
      (∀ ro ∈ L, ∀ cv ∈ ro, ∀ p : Piece, cv = some p →
        ¬(p.name = PieceName.king ∧ p.color = Color.white)) →
      ∀ acc : Bool × Bool,
      (L.foldl
        (fun acc ro =>
          ro.foldl
            (fun (acc : Bool × Bool) cv =>
              match cv with
              | some p =>
                if p.name = PieceName.king then
                  if p.color = Color.white then (true, acc.2)
                  else (acc.1, true)
                else acc
              | none => acc)
            acc)
        acc).1 = acc.1 := by
    intro L
    induction L with
    | nil => intro _ acc; rfl
    | cons ro L ih =>
      intro hall acc
      rw [List.foldl_cons]
      rw [ih fun r hr => hall r (List.mem_cons_of_mem _ hr)]
      exact hrowstep ro (hall ro (List.mem_cons_self ..)) acc
  exact main bd hcells (false, false)

/-- Without a black king anywhere, the `check_win_condition` scan never sets
the black flag. -/
theorem king_flags_snd {bd : Board} (h : hasKing bd .black = false) :
    (king_flags bd).2 = false := by
  have hcells := hasKing_cells h
  have hrowstep : ∀ (ro : List (Option Piece)),
      (∀ cv ∈ ro, ∀ p : Piece, cv = some p →
        ¬(p.name = PieceName.king ∧ p.color = Color.black)) →
      ∀ acc : Bool × Bool,
      (ro.foldl
        (fun (acc : Bool × Bool) cv =>
          match cv with
          | some p =>
            if p.name = PieceName.king then
              if p.color = Color.white then (true, acc.2) else (acc.1, true)
            else acc
          | none => acc)
        acc).2 = acc.2 := by
    intro ro
    induction ro with
    | nil => intro _ acc; rfl
    | cons cv ro ih =>
      intro hall acc
      rw [List.foldl_cons]
      rw [ih fun c hc => hall c (List.mem_cons_of_mem _ hc)]
      rcases cv with _ | p
      · rfl
      · by_cases hk : p.name = PieceName.king
        · have hb : ¬p.color = Color.black := fun hc =>
            hall _ (List.mem_cons_self ..) p rfl ⟨hk, hc⟩
          have hw : p.color = Color.white := by
            cases hcol : p.color
            · rfl
            · exact absurd hcol hb
          simp [hk, hw]
        · simp [hk]
  unfold king_flags
  have main : ∀ (L : List (List (Option Piece))),
      (∀ ro ∈ L, ∀ cv ∈ ro, ∀ p : Piece, cv = some p →
        ¬(p.name = PieceName.king ∧ p.color = Color.black)) →
      ∀ acc : Bool × Bool,
      (L.foldl
        (fun acc ro =>
          ro.foldl
            (fun (acc : Bool × Bool) cv =>
              match cv with
              | some p =>
                if p.name = PieceName.king then
                  if p.color = Color.white then (true, acc.2)
                  else (acc.1, true)
                else acc
              | none => acc)
            acc)
        acc).2 = acc.2 := by
    intro L
    induction L with
    | nil => intro _ acc; rfl
    | cons ro L ih =>
      intro hall acc
      rw [List.foldl_cons]
      rw [ih fun r hr => hall r (List.mem_cons_of_mem _ hr)]
      exact hrowstep ro (hall ro (List.mem_cons_self ..)) acc
  exact main bd hcells (false, false)

/-! ### Claim theorems -/

/-- C10: `get_king_moves` tests each candidate destination by temporarily
writing the candidate into the king's coordinate fields and calling
`is_in_check`, but every iteration restores `original_row, original_col`
before proceeding, on every branch: the coordinate state coming out of the
direction loop equals the state going in, so the king piece — and with it the
board, whose array is never written by the function — is exactly as before
the call. -/
theorem c10_king_moves_restore_position (bd : Board) (p : Piece) :
    (get_king_moves_core p bd).1 = (p.row, p.col) ∧
    ({ p with row := (get_king_moves_core p bd).1.1,
              col := (get_king_moves_core p bd).1.2 } : Piece) = p := by
  have h : (get_king_moves_core p bd).1 = (p.row, p.col) :=
    foldl_king_step_fst bd p king_dirs ((p.row, p.col), [])
  exact ⟨h, by rw [h]⟩

/-- C2 (code bug): the en-passant target is always cleared.  Line 1011 of the
source checks the double-step distance against `selected_piece.row` *after*
line 983 already set that field to the destination row, so the tested distance
is always 1 and `en_passant_target` is assigned `None` on every committed
move.  In particular the spec's scenario fails at its first step: after
White's double step (6,4)→(4,4) from the initial position the target is
`None`, not (5,4). -/
theorem c2_ep_target_always_cleared (st : GameState)
    (fromR fromC toR toC : Int) (promo : PieceName) (sel : Piece)
    (hsel : cell st.board fromR fromC = some sel) :
    (commit st fromR fromC toR toC promo).ept = none := by
  have hrow := apply_move_sel2_row st.board st.captured_white
    st.captured_black sel st.ept toR toC promo
  unfold commit
  rw [hsel]
  dsimp only
  split
  · split
    · exact next_ept_row_eq _ _ _ hrow
    · exact next_ept_row_eq _ _ _ hrow
  · exact next_ept_row_eq _ _ _ hrow

/-- C2 witness: the spec scenario's failing input, evaluated.  From the
initial position White commits the pawn double step (6,4)→(4,4); the claim
requires the en-passant target (5,4), but the code leaves `None`. -/
theorem c2_ep_target_always_cleared_witness :
    cell initState.board 6 4 = some (mkPiece .pawn 6 4 .white) ∧
    (commit initState 6 4 4 4 PieceName.queen).ept = none :=
  ⟨by decide,
   c2_ep_target_always_cleared initState 6 4 4 4 PieceName.queen
     (mkPiece .pawn 6 4 .white) (by decide)⟩

/-- C7 (code bug): the move record does not encode the origin square.  The
f-string of line 1018 render `selected_piece.row, selected_piece.col` as the
"from" square, but line 983 already overwrote those fields with the
destination, so every record shows the destination twice.  Committing the
pawn move (6,4)→(4,4) from the initial position — the origin is (6,4), as the
first conjunct pins down — produces a record whose "from" part reads (4, 4). -/
theorem c7_move_record_origin_equals_destination :
    cell initState.board 6 4 = some (mkPiece .pawn 6 4 .white) ∧
    (commit initState 6 4 4 4 PieceName.queen).history =
      ["1. White: P from (4, 4) to (4, 4)"] := by
  constructor
  · decide
  · decide

/-- C8: when no king of the queried color is on the board, `is_in_check`
returns `False` rather than raising — the king-locating loop leaves
`king_pos = None` and line 577 returns early.  The function reads the board
and returns a boolean, so there is nothing to mutate in this embedding.  The
terminal handling of the missing king is indeed left to
`check_win_condition`, which reports the game over whenever either king is
absent. -/
theorem c8_missing_king_not_in_check (bd : Board) (color : Color)
    (h : hasKing bd color = false) :
    is_in_check bd color = false ∧ (check_win_condition bd).1 = true := by
  constructor
  · unfold is_in_check
    rw [find_king_eq_none h]
  · unfold check_win_condition
    dsimp only
    rcases color with _ | _
    · rw [if_pos (king_flags_fst h)]
    · rw [king_flags_snd h]
      split
      · rfl
      · rw [if_pos rfl]

/-- C8 witness: a board holding only the two rooks and the black king has no
white king; `is_in_check` reports `False` for White and the win-by-capture
scan reports the game over. -/
theorem c8_missing_king_not_in_check_witness :
    is_in_check
        [[some (mkPiece .king 0 0 .black), none, none, none, none, none,
          none, some (mkPiece .rook 0 7 .black)],
         emptyRank, emptyRank, emptyRank, emptyRank, emptyRank, emptyRank,
         [some (mkPiece .rook 7 0 .white), none, none, none, none, none,
          none, none]] Color.white = false ∧
    (check_win_condition
        [[some (mkPiece .king 0 0 .black), none, none, none, none, none,
          none, some (mkPiece .rook 0 7 .black)],
         emptyRank, emptyRank, emptyRank, emptyRank, emptyRank, emptyRank,
         [some (mkPiece .rook 7 0 .white), none, none, none, none, none,
          none, none]]).1 = true :=
  c8_missing_king_not_in_check _ Color.white (by decide)

/-- C9: a click on a destination that is not among the offered moves takes
the `else` branch of chess.py:1046-1054, which only reassigns the transient
selection variables; the game state — board, turn, en-passant target,
history, captured lists, undo stack, terminal flags — is returned untouched. -/
theorem c9_rejected_move_preserves_state (st : GameState) (sel : Piece)
    (valid : List (Int × Int)) (toR toC : Int) (promo : PieceName)
    (h : (toR, toC) ∉ valid) :
    (handle_click st sel valid toR toC promo).1 = st := by
  unfold handle_click
  rw [if_neg h]
  split
  · split
    · rfl
    · rfl
  · rfl

/-- C9 witness: from the initial position, with the e2-pawn selected and its
offered moves computed, clicking (3,3) — not an offered destination — leaves
the state equal to `initState`. -/
theorem c9_rejected_move_preserves_state_witness :
    (handle_click initState (mkPiece .pawn 6 4 .white)
      (select_moves initState.board initState.ept initState.turn
        (mkPiece .pawn 6 4 .white)) 3 3 PieceName.queen).1 = initState :=
  c9_rejected_move_preserves_state initState (mkPiece .pawn 6 4 .white)
    _ 3 3 PieceName.queen (by decide)

/-- C1 counterexample: in the reachable position after 1.e4 a6 2.Qh5 it is
Black's move and Black is not in check, so selecting the f7 pawn goes through
the unfiltered branch of chess.py:1062 and offers (2,5) — yet simulating that
move makes `is_in_check` true for Black (the claim's discard condition), and
committing it leaves Black's own king in check to the h5 queen.  The offered
set therefore contains a move the claim says is always discarded. -/
theorem c1_offered_move_leaves_king_in_check :
    Reachable c1_state ∧
    c1_state.game_over = false ∧
    cell c1_state.board 1 5 = some (mkPiece .pawn 1 5 .black) ∧
    (mkPiece .pawn 1 5 .black).color = c1_state.turn ∧
    (2, 5) ∈ select_moves c1_state.board c1_state.ept c1_state.turn
      (mkPiece .pawn 1 5 .black) ∧
    move_puts_king_in_check c1_state.board (mkPiece .pawn 1 5 .black) (2, 5)
      Color.black = true ∧
    is_in_check (commit c1_state 1 5 2 5 PieceName.queen).board Color.black =
      true := by
  have h1 : Reachable (commit initState 6 4 4 4 PieceName.queen) :=
    .step .init (by decide)
      (show cell initState.board 6 4 = some (mkPiece .pawn 6 4 .white) by
        decide)
      (by decide) (by decide)
  have h2 : Reachable (commit (commit initState 6 4 4 4 PieceName.queen)
      1 0 2 0 PieceName.queen) :=
    .step h1 (by decide)
      (show cell (commit initState 6 4 4 4 PieceName.queen).board 1 0 =
          some (mkPiece .pawn 1 0 .black) by decide)
      (by decide) (by decide)
  have h3 : Reachable c1_state :=
    .step h2 (by decide)
      (show cell (commit (commit initState 6 4 4 4 PieceName.queen)
          1 0 2 0 PieceName.queen).board 7 3 =
          some (mkPiece .queen 7 3 .white) by decide)
      (by decide) (by decide)
  exact ⟨h3, by decide, by decide, by decide, by decide, by decide, by decide⟩

/-- C1 amended: the simulate-then-check filter of `move_puts_king_in_check`
governs the offered destinations only on the selection paths that apply it —
a fresh selection while the mover is in check (chess.py:1060), and every
reselection (chess.py:1051, the same filtered comprehension).  On those paths
every offered candidate's simulation leaves `is_in_check` false for the
mover.  A fresh selection while not in check (chess.py:1062) offers the raw
pseudo-legal moves, which may leave the mover's own king in check when
committed, as the counterexample shows. -/
theorem c1_in_check_selection_filtered (bd : Board)
    (ept : Option (Int × Int)) (turn : Color) (p : Piece) (m : Int × Int)
    (hchk : is_in_check bd turn = true)
    (hm : m ∈ select_moves bd ept turn p) :
    move_puts_king_in_check bd p m turn = false := by
  unfold select_moves at hm
  rw [if_pos hchk] at hm
  unfold filtered_moves at hm
  rw [List.mem_filter] at hm
  simpa using hm.2

/-- C1 witness: White's king on e1 is in check from the black rook on e8;
selecting the king offers (7,3), whose simulation indeed leaves White out of
check. -/
theorem c1_in_check_selection_filtered_witness :
    is_in_check
      [[some (mkPiece .king 0 0 .black), none, none, none,
        some (mkPiece .rook 0 4 .black), none, none, none],
       emptyRank, emptyRank, emptyRank, emptyRank, emptyRank, emptyRank,
       [none, none, none, none, some (mkPiece .king 7 4 .white), none, none,
        none]] Color.white = true ∧
    move_puts_king_in_check
      [[some (mkPiece .king 0 0 .black), none, none, none,
        some (mkPiece .rook 0 4 .black), none, none, none],
       emptyRank, emptyRank, emptyRank, emptyRank, emptyRank, emptyRank,
       [none, none, none, none, some (mkPiece .king 7 4 .white), none, none,
        none]] (mkPiece .king 7 4 .white) (7, 3) Color.white = false :=
  ⟨by decide,
   c1_in_check_selection_filtered _ none Color.white
     (mkPiece .king 7 4 .white) (7, 3) (by decide) (by decide)⟩

/-- The `winner` variable of any reachable, non-terminal state is `None`:
true initially, and a commit that leaves `game_over` false does not write
`winner`. -/
theorem reachable_winner_none {st : GameState} (h : Reachable st) :
    st.game_over = false → st.winner = none := by
  induction h with
  | init => intro _; rfl
  | step hr hgo hcell hcol hmem ih =>
    intro hgo2
    rw [(commit_proj hcell).2.2.2.2 hgo2]
    exact ih hgo

/-- C3: committing any offered move from a reachable non-terminal state and
then undoing reproduces the pre-move state exactly.  The commit's first act
(chess.py:961) pushes the six-component snapshot; `undo` pops it, restores
board, turn, en-passant target, history and both captured lists, and clears
the terminal flags — which in the pre-move state were already
`False`/`None`.  In this embedding snapshots are values, so the deep-copy
independence the claim mentions holds by construction: nothing done to the
live state after the push can alter the stored frame. -/
theorem c3_undo_commit_roundtrip (st : GameState) (fromR fromC toR toC : Int)
    (promo : PieceName) (p : Piece)
    (hre : Reachable st) (hgo : st.game_over = false)
    (hcell : cell st.board fromR fromC = some p) (hcol : p.color = st.turn)
    (hmem : (toR, toC) ∈ select_moves st.board st.ept st.turn p) :
    undo (commit st fromR fromC toR toC promo) = st := by
  have hw : st.winner = none := reachable_winner_none hre hgo
  have hs := (@commit_proj st fromR fromC toR toC promo p hcell).2.2.2.1
  unfold undo
  rw [hs]
  rcases st with ⟨bd, turn, ept, hist, cw, cb, stack, go, win⟩
  dsimp only at hgo hw ⊢
  rw [hgo, hw]
  rfl

/-- C3 witness: committing the offered pawn move (6,4)→(4,4) from the initial
position and undoing returns exactly `initState`. -/
theorem c3_undo_commit_roundtrip_witness :
    undo (commit initState 6 4 4 4 PieceName.queen) = initState :=
  c3_undo_commit_roundtrip initState 6 4 4 4 PieceName.queen
    (mkPiece .pawn 6 4 .white) .init (by decide) (by decide) (by decide)
    (by decide)

/-- C4 counterexample: the castling precondition checks of
`can_castle_kingside` are tied to the home rank (row 7 for White), not to the
king's actual square, so for a king away from its home square with the
`has_moved` flag still `False` a castling destination can be offered even
though the destination itself is attacked.  On `c4_board` the white king at
(3,4) is offered (3,6) — a two-column king displacement — while the black
rook on (0,6) attacks (3,6). -/
theorem c4_castling_offered_with_attacked_destination :
    cell c4_board 3 4 = some (mkPiece .king 3 4 .white) ∧
    (3, 6) ∈ get_king_moves (mkPiece .king 3 4 .white) c4_board ∧
    is_square_under_attack c4_board (3, 6) Color.white = true :=
  ⟨by decide, by decide, by decide⟩

/-- C4 amended: for a king whose coordinates are its home square
(`home_row color`, column 4) — the only configuration the hard-coded checks
of `can_castle_kingside`/`can_castle_queenside` are aligned with — a castling
destination appears in `get_king_moves` only when the claim's preconditions
all hold: king and matching rook unmoved, the squares strictly between them
empty, the king not in check, and the king's current square, the square it
passes through and its destination all unattacked. -/
theorem c4_castling_preconditions_on_home_square (bd : Board) (p : Piece)
    (_hname : p.name = PieceName.king)
    (_hrow : p.row = home_row p.color) (hcol : p.col = 4) :
    ((home_row p.color, 6) ∈ get_king_moves p bd →
      p.has_moved = false ∧ is_in_check bd p.color = false ∧
      (∃ rk : Piece, cell bd (home_row p.color) 7 = some rk ∧
        rk.name = PieceName.rook ∧ rk.color = p.color ∧
        rk.has_moved = false) ∧
      cell bd (home_row p.color) 5 = none ∧
      cell bd (home_row p.color) 6 = none ∧
      is_square_under_attack bd (home_row p.color, 4) p.color = false ∧
      is_square_under_attack bd (home_row p.color, 5) p.color = false ∧
      is_square_under_attack bd (home_row p.color, 6) p.color = false) ∧
    ((home_row p.color, 2) ∈ get_king_moves p bd →
      p.has_moved = false ∧ is_in_check bd p.color = false ∧
      (∃ rk : Piece, cell bd (home_row p.color) 0 = some rk ∧
        rk.name = PieceName.rook ∧ rk.color = p.color ∧
        rk.has_moved = false) ∧
      cell bd (home_row p.color) 1 = none ∧
      cell bd (home_row p.color) 2 = none ∧
      cell bd (home_row p.color) 3 = none ∧
      is_square_under_attack bd (home_row p.color, 2) p.color = false ∧
      is_square_under_attack bd (home_row p.color, 3) p.color = false ∧
      is_square_under_attack bd (home_row p.color, 4) p.color = false) := by
  constructor
  · intro hmem
    unfold get_king_moves at hmem
    rcases List.mem_append.mp hmem with hc | hcast
    · exfalso
      obtain ⟨d, hd, he⟩ := get_king_moves_core_mem bd p _ hc
      have h6 : (6 : Int) = p.col + d.2 := congrArg Prod.snd he
      rw [hcol] at h6
      simp only [king_dirs, List.mem_cons, List.not_mem_nil, or_false]
        at hd
      rcases hd with rfl | rfl | rfl | rfl | rfl | rfl | rfl | rfl <;>
        omega
    · by_cases hg : p.has_moved = false ∧ is_in_check bd p.color = false
      · rw [if_pos hg] at hcast
        rcases List.mem_append.mp hcast with hks | hqs
        · by_cases hk : can_castle_kingside bd p.color = true
          · refine ⟨hg.1, hg.2, ?_⟩
            unfold can_castle_kingside at hk
            dsimp only at hk
            rcases hc7 : cell bd (home_row p.color) 7 with _ | rk
            · rw [hc7] at hk; simp at hk
            · rw [hc7] at hk
              simp only [Bool.and_eq_true, decide_eq_true_eq,
                Bool.not_eq_true'] at hk
              exact ⟨⟨rk, rfl, hk.1.1.1.1.1.1.1, hk.1.1.1.1.1.1.2,
                hk.1.1.1.1.1.2⟩, hk.1.1.1.1.2, hk.1.1.1.2, hk.1.1.2,
                hk.1.2, hk.2⟩
          · rw [if_neg hk] at hks
            cases hks
        · by_cases hq : can_castle_queenside bd p.color = true
          · rw [if_pos hq] at hqs
            exfalso
            have h2 : (6 : Int) = p.col - 2 := by
              have := List.mem_singleton.mp hqs
              exact congrArg Prod.snd this
            rw [hcol] at h2
            omega
          · rw [if_neg hq] at hqs
            cases hqs
      · rw [if_neg hg] at hcast
        cases hcast
  · intro hmem
    unfold get_king_moves at hmem
    rcases List.mem_append.mp hmem with hc | hcast
    · exfalso
      obtain ⟨d, hd, he⟩ := get_king_moves_core_mem bd p _ hc
      have h6 : (2 : Int) = p.col + d.2 := congrArg Prod.snd he
      rw [hcol] at h6
      simp only [king_dirs, List.mem_cons, List.not_mem_nil, or_false]
        at hd
      rcases hd with rfl | rfl | rfl | rfl | rfl | rfl | rfl | rfl <;>
        omega
    · by_cases hg : p.has_moved = false ∧ is_in_check bd p.color = false
      · rw [if_pos hg] at hcast
        rcases List.mem_append.mp hcast with hks | hqs
        · by_cases hk : can_castle_kingside bd p.color = true
          · rw [if_pos hk] at hks
            exfalso
            have h2 : (2 : Int) = p.col + 2 := by
              have := List.mem_singleton.mp hks
              exact congrArg Prod.snd this
            rw [hcol] at h2
            omega
          · rw [if_neg hk] at hks
            cases hks
        · by_cases hq : can_castle_queenside bd p.color = true
          · refine ⟨hg.1, hg.2, ?_⟩
            unfold can_castle_queenside at hq
            dsimp only at hq
            rcases hc0 : cell bd (home_row p.color) 0 with _ | rk
            · rw [hc0] at hq; simp at hq
            · rw [hc0] at hq
              simp only [Bool.and_eq_true, decide_eq_true_eq,
                Bool.not_eq_true'] at hq
              exact ⟨⟨rk, rfl, hq.1.1.1.1.1.1.1.1, hq.1.1.1.1.1.1.1.2,
                hq.1.1.1.1.1.1.2⟩, hq.1.1.1.1.1.2, hq.1.1.1.1.2,
                hq.1.1.1.2, hq.1.1.2, hq.1.2, hq.2⟩
          · rw [if_neg hq] at hqs
            cases hqs
      · rw [if_neg hg] at hcast
        cases hcast

/-- C4 witness: on `c4_home_board` kingside castling for the white king on
e1 is offered, and the amended theorem yields every precondition. -/
theorem c4_castling_preconditions_on_home_square_witness :
    (mkPiece .king 7 4 .white).has_moved = false ∧
    is_in_check c4_home_board Color.white = false ∧
    (∃ rk : Piece, cell c4_home_board (home_row Color.white) 7 = some rk ∧
      rk.name = PieceName.rook ∧ rk.color = Color.white ∧
      rk.has_moved = false) ∧
    cell c4_home_board (home_row Color.white) 5 = none ∧
    cell c4_home_board (home_row Color.white) 6 = none ∧
    is_square_under_attack c4_home_board (home_row Color.white, 4)
      Color.white = false ∧
    is_square_under_attack c4_home_board (home_row Color.white, 5)
      Color.white = false ∧
    is_square_under_attack c4_home_board (home_row Color.white, 6)
      Color.white = false :=
  (c4_castling_preconditions_on_home_square c4_home_board
    (mkPiece .king 7 4 .white) rfl (by decide) rfl).1 (by decide)

/-- C5: `is_checkmate(board, color)` returns `True` iff `color` is in check
and every piece of that color has an empty legal-move list in the sense of
§4.4's simulate-then-check filter — `legal_moves_per_spec`, built from the
same generated moves (no en-passant target exists inside `is_checkmate`, so
none is passed) and the same simulation, including the castling rook
displacement.  The source's early `return False` on a surviving move is
exactly the emptiness of that filtered list. -/
theorem c5_checkmate_iff_no_legal_escape (bd : Board) (color : Color) :
    is_checkmate bd color = true ↔ checkmate_per_spec bd color := by
  unfold is_checkmate checkmate_per_spec legal_moves_per_spec
  rw [Bool.and_eq_true]
  constructor
  · rintro ⟨h1, h2⟩
    refine ⟨h1, fun ro hro cv hcv p hp hcolor => ?_⟩
    subst hp
    have h3 := List.all_eq_true.mp (List.all_eq_true.mp h2 ro hro) _ hcv
    dsimp only at h3
    rw [if_pos hcolor] at h3
    rw [List.filter_eq_nil_iff]
    intro m hm
    have h4 := List.all_eq_true.mp h3 m hm
    simp [h4]
  · rintro ⟨h1, h2⟩
    refine ⟨h1, List.all_eq_true.mpr fun ro hro =>
      List.all_eq_true.mpr fun cv hcv => ?_⟩
    rcases cv with _ | p
    · rfl
    · dsimp only
      by_cases hcolor : p.color = color
      · rw [if_pos hcolor]
        refine List.all_eq_true.mpr fun m hm => ?_
        have h5 := h2 ro hro _ hcv p rfl hcolor
        rw [List.filter_eq_nil_iff] at h5
        simpa using h5 m hm
      · rw [if_neg hcolor]

/-- The castling block of a commit is a no-op for a non-king mover. -/
theorem castle_rook_of_not_king {bd : Board} {q : Piece} {toR toC : Int}
    (h : ¬q.name = PieceName.king) : castle_rook bd q toR toC = bd := by
  unfold castle_rook
  rw [if_neg]
  rintro ⟨hk, -⟩
  exact h hk

/-- C6: when a committed move is a pawn move onto the en-passant target, the
piece removed (and tagged into the matching captured list) is the occupant of
the bypassed square — the mover's pre-move row paired with the destination
column — while the (empty) destination square contributes nothing; the pawn
itself ends on the destination square.  Hypotheses: a well-formed board, the
moving pawn at its recorded coordinates, the destination equal to the stored
en-passant target and empty (as it always is for a genuine en-passant
capture, being the square the enemy pawn skipped), in-range coordinates, a
genuinely diagonal step, and a destination short of the promotion ranks. -/
theorem c6_en_passant_removes_bypassed_pawn (st : GameState)
    (frR frC toR toC : Int) (promo : PieceName) (sel victim : Piece)
    (hwf : WF st.board)
    (hsel : cell st.board frR frC = some sel)
    (hrow : sel.row = frR) (hcol : sel.col = frC)
    (hp : sel.name = PieceName.pawn)
    (hept : st.ept = some (toR, toC))
    (hvict : cell st.board frR toC = some victim)
    (hdest : cell st.board toR toC = none)
    (hfr : 0 ≤ frR) (hfr8 : frR < 8) (hfc : 0 ≤ frC) (hfc8 : frC < 8)
    (htr : 0 ≤ toR) (htr8 : toR < 8) (htc : 0 ≤ toC) (htc8 : toC < 8)
    (hrne : toR ≠ frR) (hcne : toC ≠ frC)
    (hpr0 : toR ≠ 0) (hpr7 : toR ≠ 7) :
    cell (commit st frR frC toR toC promo).board frR toC = none ∧
    cell (commit st frR frC toR toC promo).board toR toC =
      some { sel with row := toR, col := toC, has_moved := true } ∧
    (commit st frR frC toR toC promo).captured_white =
      (if victim.color = .white then
        st.captured_white ++ [piece_tag victim]
      else st.captured_white) ∧
    (commit st frR frC toR toC promo).captured_black =
      (if victim.color = .white then st.captured_black
      else st.captured_black ++ [piece_tag victim]) := by
  have hlen8 : st.board.length = 8 := hwf.1
  have hfrn : frR.toNat < st.board.length := by omega
  have htrn : toR.toNat < st.board.length := by omega
  have hne_rf : toR.toNat ≠ frR.toNat := by omega
  have hne_fr : frR.toNat ≠ toR.toNat := by omega
  have hne_ct : frC.toNat ≠ toC.toNat := by omega
  have hep : ep_capture st.board st.captured_white st.captured_black sel
      st.ept toR toC =
      (setCell st.board frR toC none,
       (if victim.color = .white then
         st.captured_white ++ [piece_tag victim]
       else st.captured_white),
       (if victim.color = .white then st.captured_black
       else st.captured_black ++ [piece_tag victim])) := by
    unfold ep_capture
    rw [if_pos ⟨hp, by rw [hept]⟩]
    dsimp only
    rw [hrow, hvict]
  have hcap : cell (setCell (setCell st.board frR toC none) frR frC none)
      toR toC = none := by
    rw [cell_setCell_ne_row hne_fr, cell_setCell_ne_row hne_fr, hdest]
  have hmovk :
      ¬(({ sel with row := toR, col := toC, has_moved := true } :
        Piece).name = PieceName.king) := by
    dsimp only
    rw [hp]
    intro h
    cases h
  have happ : apply_move st.board st.captured_white st.captured_black sel
      st.ept toR toC promo =
      (setCell (setCell (setCell st.board frR toC none) frR frC none)
        toR toC
        (some { sel with row := toR, col := toC, has_moved := true }),
       (if victim.color = .white then
         st.captured_white ++ [piece_tag victim]
       else st.captured_white),
       (if victim.color = .white then st.captured_black
       else st.captured_black ++ [piece_tag victim]),
       { sel with row := toR, col := toC, has_moved := true }) := by
    unfold apply_move
    dsimp only
    rw [hep]
    dsimp only
    rw [hrow, hcol, hcap]
    dsimp only
    rw [castle_rook_of_not_king hmovk]
    rw [if_neg]
    rintro ⟨-, h07⟩
    rcases h07 with h | h
    · exact hpr0 h
    · exact hpr7 h
  have hproj := @commit_proj st frR frC toR toC promo sel hsel
  rw [hproj.1, hproj.2.1, hproj.2.2.1, happ]
  have hXlen : (setCell st.board frR toC none).length = st.board.length :=
    setCell_length
  refine ⟨?_, ?_, rfl, rfl⟩
  · rw [cell_setCell_ne_row hne_rf,
      cell_setCell_same_row (by rw [hXlen]; exact hfrn) hne_ct,
      cell_setCell_same hfrn
        (by rw [WF.row_len hwf hfrn]; omega)]
  · refine cell_setCell_same (by rw [setCell_length, hXlen]; exact htrn) ?_
    rw [row_setCell_ne hne_fr, row_setCell_ne hne_fr,
      WF.row_len hwf htrn]
    omega

/-- C6 witness: in `c6_state` (en-passant target (2,3), white pawn on (3,4),
black pawn on (3,3)) the commit of the pawn move (3,4)→(2,3) empties the
bypassed square (3,3), lands the pawn on (2,3), and tags the black pawn into
the black captured list. -/
theorem c6_en_passant_removes_bypassed_pawn_witness :
    cell (commit c6_state 3 4 2 3 PieceName.queen).board 3 3 = none ∧
    cell (commit c6_state 3 4 2 3 PieceName.queen).board 2 3 =
      some { mkPiece .pawn 3 4 .white with row := 2, col := 3, has_moved := true } ∧
    (commit c6_state 3 4 2 3 PieceName.queen).captured_white =
      (if (mkPiece .pawn 3 3 .black).color = .white then
        c6_state.captured_white ++ [piece_tag (mkPiece .pawn 3 3 .black)]
      else c6_state.captured_white) ∧
    (commit c6_state 3 4 2 3 PieceName.queen).captured_black =
      (if (mkPiece .pawn 3 3 .black).color = .white then
        c6_state.captured_black
      else c6_state.captured_black ++ [piece_tag (mkPiece .pawn 3 3 .black)]) :=
  c6_en_passant_removes_bypassed_pawn c6_state 3 4 2 3 PieceName.queen
    (mkPiece .pawn 3 4 .white) (mkPiece .pawn 3 3 .black)
    (by decide) (by decide) (by decide) (by decide) (by decide) (by decide)
    (by decide) (by decide) (by decide) (by decide) (by decide) (by decide)
    (by decide) (by decide) (by decide) (by decide) (by decide) (by decide)
    (by decide) (by decide)

end Chess
